import Mathlib

/-
  Verification of the elevator dispatch and movement scheduler
  (services/elevatorService.js and db/db.js).

  The JavaScript service is shallowly embedded as pure Lean functions over an
  explicit system state.  The SQLite store becomes a list of elevator rows,
  the append-only event_logs table a list of event records, and the timer
  facility (setTimeout chains) an explicit list of pending timer events with
  their absolute fire times; timers fire earliest-first, and timers with the
  same fire time fire in registration order, matching the runtime.  uuidv4 is
  modelled by a fresh-token counter carried in the system state.
-/

namespace ElevatorApi

/-- The state column of an elevator row: the source uses the strings
    Idle, Moving and DoorsOpen. -/
inductive EState
  | Idle
  | Moving
  | DoorsOpen
deriving DecidableEq

/-- The direction column of an elevator row: the source uses the strings
    Up, Down and None. -/
inductive Direction
  | Up
  | Down
  | None
deriving DecidableEq

/-- One entry of the job_queue array written by moveElevator:
    the source object is (start, end, jobId); end is a Lean keyword, so the
    field is named destination here. -/
structure Job where
  start : Int
  destination : Int
  jobId : Nat
deriving DecidableEq

/-- The value held by the job_queue field of an elevator object as seen by a
    JavaScript caller.  The database column is TEXT holding the JSON
    serialization of a list of jobs; getElevators returns that raw string
    unchanged while getElevatorById returns JSON.parse of it.  JSON.stringify
    is injective on job lists and JSON.parse is its left inverse, so the raw
    string is represented by the list it serializes; the constructor records
    whether the field holds the raw string (jsonText) or the parsed array
    (array) - in JavaScript a string value is never equal to an array value. -/
inductive JobQueueVal
  | jsonText (jobs : List Job)
  | array (jobs : List Job)
deriving DecidableEq

/-- The list underlying either form of a job_queue value. -/
def JobQueueVal.jobs : JobQueueVal → List Job
  | .jsonText l => l
  | .array l => l

/-- A row of the elevators table.  The job_queue TEXT cell is represented by
    the job list it serializes (see JobQueueVal). -/
structure ElevatorRow where
  id : Nat
  current_floor : Int
  state : EState
  direction : Direction
  job_queue : List Job
deriving DecidableEq

/-- An elevator object as handed to JavaScript callers (a row spread into an
    object, with job_queue either raw or parsed). -/
structure Elevator where
  id : Nat
  current_floor : Int
  state : EState
  direction : Direction
  job_queue : JobQueueVal
deriving DecidableEq

/-- Details payloads of event_logs rows (JSON.stringify of the details
    object; undefined fields are dropped by stringify, hence the Options in
    stateUpdate). -/
inductive EventDetails
  | callDetails (start_floor end_floor : Int) (jobId : Nat)
  | doors (current_floor : Int) (doorsOpen : Bool)
  | stateUpdate (state : Option EState) (direction : Option Direction)
      (current_floor : Option Int)
deriving DecidableEq

/-- A row of the append-only event_logs table (id and timestamp omitted:
    no claim concerns them). -/
structure EventLog where
  elevator_id : Nat
  event_type : String
  details : EventDetails
deriving DecidableEq

/-- db.logEvent: appends one row to event_logs (it performs no existence
    check on the elevator id). -/
def logEvent (events : List EventLog) (elevator_id : Nat) (event_type : String)
    (details : EventDetails) : List EventLog :=
  events ++ [⟨elevator_id, event_type, details⟩]

/-- SELECT * FROM elevators WHERE id = ? (first matching row). -/
def findRow (store : List ElevatorRow) (id : Nat) : Option ElevatorRow :=
  store.find? fun r => decide (r.id = id)

/-- The elevator object returned by db.getElevators: the raw row, job_queue
    still the stored JSON text. -/
def rowToSnapshot (r : ElevatorRow) : Elevator :=
  ⟨r.id, r.current_floor, r.state, r.direction, .jsonText r.job_queue⟩

/-- The elevator object returned by db.getElevatorById: the row spread with
    job_queue replaced by JSON.parse of the stored text. -/
def rowToParsed (r : ElevatorRow) : Elevator :=
  ⟨r.id, r.current_floor, r.state, r.direction, .array r.job_queue⟩

/-- db.getElevators: SELECT * FROM elevators (rows in stored order; the
    read-audit insert into sql_logs is not modelled, it touches no claim). -/
def getElevators (store : List ElevatorRow) : List Elevator :=
  store.map rowToSnapshot

/-- db.getElevatorById: single row by id, job_queue parsed; null when the id
    is absent. -/
def getElevatorById (store : List ElevatorRow) (id : Nat) : Option Elevator :=
  (findRow store id).map rowToParsed

/-- The partial update object passed to db.updateElevatorState; a missing
    field is none (undefined in the source). -/
structure PartialUpdate where
  current_floor : Option Int := none
  state : Option EState := none
  direction : Option Direction := none
  job_queue : Option (List Job) := none
deriving DecidableEq

/-- The JavaScript expression a || b for a possibly-absent number field:
    undefined and 0 are falsy, every other number is truthy. -/
def jsOrNum (a : Option Int) (b : Int) : Int :=
  match a with
  | some n => if n = 0 then b else n
  | none => b

/-- db.updateElevatorState: read the row through getElevatorById, merge with
    JavaScript || (the enum-backed string fields are non-empty strings, hence
    truthy when present; a job_queue array, even empty, is truthy), UPDATE all
    rows with the id, then logEvent a state_update whose details are the raw
    fields of the newState argument (not the merged values).  Missing id:
    return with no write and no event. -/
def updateElevatorState (store : List ElevatorRow) (events : List EventLog)
    (id : Nat) (newState : PartialUpdate) : List ElevatorRow × List EventLog :=
  match getElevatorById store id with
  | none => (store, events)
  | some elevator =>
    let newJobQueue := newState.job_queue.getD elevator.job_queue.jobs
    let store2 := store.map fun r =>
      if r.id = id then
        { r with
          current_floor := jsOrNum newState.current_floor elevator.current_floor,
          state := newState.state.getD elevator.state,
          direction := newState.direction.getD elevator.direction,
          job_queue := newJobQueue }
      else r
    (store2,
     logEvent events id "state_update"
       (.stateUpdate newState.state newState.direction newState.current_floor))

/-- The config object of elevatorService.js with its default values
    (parseInt of the environment falling back to 5000 / 2000 / 20). -/
structure Config where
  FLOOR_TRAVEL_TIME_MS : Nat := 5000
  DOOR_ACTION_TIME_MS : Nat := 2000
  MAX_FLOORS : Int := 20
deriving DecidableEq

/-- The default configuration. -/
def defaultConfig : Config := {}

/-- A deferred callback created by setTimeout, tagged with the data its
    closure captured.  floorStep is one invocation of floorIterator inside
    moveElevator (the closure captures elevatorId, direction and endFloor and
    receives the floor to process); doorClose is the callback scheduled by
    arriveAtFloor; secondLeg is the leg-2 moveElevator call scheduled by
    callElevator. -/
inductive TimerEvent
  | floorStep (elevatorId : Nat) (direction : Direction) (endFloor floor : Int)
  | doorClose (elevatorId : Nat) (floor : Int)
  | secondLeg (elevatorId : Nat) (startFloor endFloor : Int) (jobId : Nat)
deriving DecidableEq

/-- The whole system: the elevators table, the event_logs table, the pending
    timers (absolute fire time paired with the callback) in registration
    order, and the fresh-token counter standing in for uuidv4. -/
structure Sys where
  store : List ElevatorRow
  events : List EventLog
  pending : List (Nat × TimerEvent)
  nextJobId : Nat
deriving DecidableEq

/-- arriveAtFloor: set state to DoorsOpen (a partial update touching only
    state), log the arrival event - note logEvent runs whether or not the row
    exists - and schedule the door-close callback. -/
def arriveAtFloor (cfg : Config) (sys : Sys) (now : Nat) (elevatorId : Nat)
    (floor : Int) : Sys :=
  let se := updateElevatorState sys.store sys.events elevatorId
    { state := some .DoorsOpen }
  let events := logEvent se.2 elevatorId "arrival" (.doors floor true)
  { sys with
    store := se.1
    events := events
    pending := sys.pending ++ [(now + cfg.DOOR_ACTION_TIME_MS, .doorClose elevatorId floor)] }

/-- One invocation of floorIterator: on reaching endFloor hand over to
    arriveAtFloor (without writing the floor!); otherwise persist the current
    floor and schedule the next invocation one travel interval later. -/
def floorIteratorStep (cfg : Config) (sys : Sys) (now : Nat) (elevatorId : Nat)
    (direction : Direction) (endFloor currentFloor : Int) : Sys :=
  if currentFloor = endFloor then
    arriveAtFloor cfg sys now elevatorId endFloor
  else
    let se := updateElevatorState sys.store sys.events elevatorId
      { current_floor := some currentFloor }
    let nextFloor := if direction = .Up then currentFloor + 1 else currentFloor - 1
    { sys with
      store := se.1
      events := se.2
      pending := sys.pending ++ [(now + cfg.FLOOR_TRAVEL_TIME_MS, .floorStep elevatorId direction endFloor nextFloor)] }

/-- moveElevator: return silently if the row is gone; otherwise compute the
    direction (Up exactly when endFloor > startFloor), write the dispatch
    update (Moving, direction, a one-job queue) and run the first
    floorIterator invocation synchronously. -/
def moveElevator (cfg : Config) (sys : Sys) (now : Nat) (elevatorId : Nat)
    (startFloor endFloor : Int) (jobId : Nat) : Sys :=
  match getElevatorById sys.store elevatorId with
  | none => sys
  | some _ =>
    let direction : Direction := if endFloor > startFloor then .Up else .Down
    let se := updateElevatorState sys.store sys.events elevatorId
      { state := some .Moving, direction := some direction,
        job_queue := some [⟨startFloor, endFloor, jobId⟩] }
    floorIteratorStep cfg { sys with store := se.1, events := se.2 } now
      elevatorId direction endFloor startFloor

/-- Processing one fired timer callback. -/
def processEvent (cfg : Config) (sys : Sys) (now : Nat) : TimerEvent → Sys
  | .floorStep id dir endF cur => floorIteratorStep cfg sys now id dir endF cur
  | .doorClose id floor =>
    let se := updateElevatorState sys.store sys.events id
      { state := some .Idle, direction := some .None, job_queue := some [] }
    { sys with
      store := se.1
      events := logEvent se.2 id "door_close" (.doors floor false) }
  | .secondLeg id s e jobId => moveElevator cfg sys now id s e jobId

/-- The pending timer that fires next: the first timer holding the minimal
    fire time (ties go to the earlier registered one, as in the runtime),
    together with the rest in registration order. -/
def pickEarliest : List (Nat × TimerEvent) →
    Option ((Nat × TimerEvent) × List (Nat × TimerEvent))
  | [] => none
  | x :: rest =>
    match pickEarliest rest with
    | none => some (x, [])
    | some (y, others) =>
      if y.1 < x.1 then some (y, x :: others) else some (x, rest)

/-- Advance the clock to the given horizon: repeatedly fire the earliest
    pending timer whose fire time is within the horizon.  fuel bounds the
    number of callbacks processed. -/
def runEvents (cfg : Config) (horizon : Nat) : Nat → Sys → Sys
  | 0, sys => sys
  | fuel + 1, sys =>
    match pickEarliest sys.pending with
    | none => sys
    | some (tev, rest) =>
      if tev.1 ≤ horizon then
        runEvents cfg horizon fuel (processEvent cfg { sys with pending := rest } tev.1 tev.2)
      else sys

/-- The loop of findClosestIdleElevator: closestElevator starts as the first
    idle elevator and is replaced whenever a strictly smaller distance is
    found. -/
def closestLoop (startFloor : Int) : List Elevator → Elevator → Elevator
  | [], best => best
  | e :: rest, best =>
    if (e.current_floor - startFloor).natAbs < (best.current_floor - startFloor).natAbs then
      closestLoop startFloor rest e
    else
      closestLoop startFloor rest best

/-- findClosestIdleElevator: filter the getElevators list down to state Idle
    and take the first elevator of minimal absolute distance; null when none
    is idle. -/
def findClosestIdleElevator (store : List ElevatorRow) (startFloor : Int) :
    Option Elevator :=
  match (getElevators store).filter (fun e => decide (e.state = .Idle)) with
  | [] => none
  | e0 :: rest => some (closestLoop startFloor rest e0)

/-- The object returned by callElevator. -/
structure CallResult where
  success : Bool
  jobId : Option Nat := none
  message : String
  elevator_id : Option Nat := none
  status : Option String := none
deriving DecidableEq

/-- callElevator: validation (note: no lower bound on the floors is
    checked), selection of the closest idle elevator, call event, synchronous
    start of leg 1 from the selected elevator's snapshot floor to the pickup
    floor, and scheduling of leg 2 after the estimated leg-1 travel time plus
    two door intervals. -/
def callElevator (cfg : Config) (sys : Sys) (startFloor endFloor : Int)
    (now : Nat) : Sys × CallResult :=
  if startFloor = endFloor ∨ startFloor > cfg.MAX_FLOORS ∨ endFloor > cfg.MAX_FLOORS then
    (sys, { success := false, message := "Invalid floor numbers." })
  else
    match findClosestIdleElevator sys.store startFloor with
    | none => (sys, { success := false, message := "No idle elevators available." })
    | some elevator =>
      let jobId := sys.nextJobId
      let sys1 : Sys :=
        { sys with
          nextJobId := sys.nextJobId + 1
          events := logEvent sys.events elevator.id "call"
            (.callDetails startFloor endFloor jobId) }
      let sys2 := moveElevator cfg sys1 now elevator.id elevator.current_floor startFloor jobId
      let timeToArriveAtStart :=
        (startFloor - elevator.current_floor).natAbs * cfg.FLOOR_TRAVEL_TIME_MS
      let sys3 : Sys :=
        { sys2 with
          pending := sys2.pending ++
            [(now + timeToArriveAtStart + cfg.DOOR_ACTION_TIME_MS * 2,
              .secondLeg elevator.id startFloor endFloor jobId)] }
      (sys3,
       { success := true, jobId := some jobId, message := "Elevator dispatched.",
         elevator_id := some elevator.id, status := some "Moving" })

/-- getElevatorStatus: with an id, the singleton of getElevatorById (or
    empty); without, the full getElevators list. -/
def getElevatorStatus (store : List ElevatorRow) : Option Nat → List Elevator
  | some elevatorId =>
    match getElevatorById store elevatorId with
    | some elevator => [elevator]
    | none => []
  | none => getElevators store

/-- db.initializeDb seeding: rows 1..numElevators, each at floor 1, Idle,
    direction None, job_queue the serialization of the empty array. -/
def initElevators (numElevators : Nat) : List ElevatorRow :=
  (List.range numElevators).map fun i => ⟨i + 1, 1, .Idle, .None, []⟩

/-- The per-elevator invariant of the data model: direction = None, state =
    Idle and an empty job queue hold exactly together. -/
def rowInv (r : ElevatorRow) : Prop :=
  (r.direction = .None ↔ r.state = .Idle) ∧ (r.state = .Idle ↔ r.job_queue = [])

instance (r : ElevatorRow) : Decidable (rowInv r) := by
  unfold rowInv; infer_instance

/-- The job ids issued so far, as recorded by the call events in the event
    log (the only event type carrying a job id payload). -/
def issuedJobIds (events : List EventLog) : List Nat :=
  events.filterMap fun ev =>
    match ev.details with
    | .callDetails _ _ j => some j
    | _ => none

/-- The fleet of the specification's own test scenario: two idle elevators at
    floors 1 and 10. -/
def demoStore2 : List ElevatorRow := [⟨1, 1, .Idle, .None, []⟩, ⟨2, 10, .Idle, .None, []⟩]

/-- A single idle elevator at floor 3. -/
def demoStore1 : List ElevatorRow := [⟨1, 3, .Idle, .None, []⟩]

/-- The absolute distance Math.abs(e.current_floor - startFloor) minimized
    by findClosestIdleElevator. -/
def floorDistance (startFloor : Int) (e : Elevator) : Nat :=
  (e.current_floor - startFloor).natAbs

/-- A secondLeg timer (the leg-2 dispatch scheduled by callElevator), as
    opposed to the floorStep and doorClose callbacks of a movement chain. -/
def isLeg : TimerEvent → Prop
  | .secondLeg _ _ _ _ => True
  | _ => False

/-- The conditions under which a pending chain callback keeps the row
    invariant when it fires: a floorStep belongs to a leg whose direction is
    Up or Down and points from the pending position toward the end floor,
    and the rows of its elevator still carry a direction and a job (so the
    arrival update, which only sets DoorsOpen, lands on a non-idle row); a
    doorClose rewrites the full idle triple and needs nothing; a secondLeg is
    not a chain callback. -/
def chainShape (store : List ElevatorRow) : TimerEvent → Prop
  | .floorStep id dir endF cur =>
      (dir = .Up ∨ dir = .Down) ∧
      (∀ r ∈ store, r.id = id → r.direction ≠ .None ∧ r.job_queue ≠ []) ∧
      (if dir = .Up then cur ≤ endF else endF ≤ cur)
  | .doorClose _ _ => True
  | .secondLeg _ _ _ _ => False

/-- The time a movement chain still needs after its pending callback fires:
    one travel interval per remaining floor plus the closing door interval. -/
def chainRemaining (cfg : Config) : TimerEvent → Nat
  | .floorStep _ _ endF cur =>
      (endF - cur).natAbs * cfg.FLOOR_TRAVEL_TIME_MS + cfg.DOOR_ACTION_TIME_MS
  | _ => 0

/-- The pending-timer shapes reachable while at most a single call is in
    flight: nothing, one chain callback, one leg timer, or one of each with
    the chain finishing strictly before the leg timer fires. -/
def pendOk (cfg : Config) (store : List ElevatorRow) :
    List (Nat × TimerEvent) → Prop
  | [] => True
  | [(_, ev)] => chainShape store ev ∨ isLeg ev
  | [(t1, ev1), (t2, ev2)] =>
      (chainShape store ev1 ∧ isLeg ev2 ∧ t1 + chainRemaining cfg ev1 < t2) ∨
      (isLeg ev1 ∧ chainShape store ev2 ∧ t2 + chainRemaining cfg ev2 < t1)
  | _ => False

/-- The single-call system invariant: every row satisfies the equivalence of
    direction None, state Idle and empty queue, and the pending timers have a
    single-call shape. -/
def sysInv (cfg : Config) (sys : Sys) : Prop :=
  (∀ r ∈ sys.store, rowInv r) ∧ pendOk cfg sys.store sys.pending

/-- Claim C1: with the fleet of the specification's scenario (idle elevators
    at floors 1 and 10, MAX_FLOORS 20, default travel and door intervals),
    callElevator 5 15 dispatches elevator 1, and after the clock is advanced
    by the full estimated duration of both legs (4 travel intervals + 2 door
    intervals + 10 travel intervals + 2 door intervals = 78000 ms, by which
    time every scheduled callback has fired and the timer queue is empty) the
    stored record of elevator 1 is Idle with direction None and an empty job
    queue - but its current_floor is 14, not the destination floor 15:
    floorIterator hands over to arriveAtFloor without ever persisting the
    destination floor, even though the arrival event it logs records
    current_floor 15.  This contradicts the claimed (and clearly intended)
    postcondition current_floor = end_floor. -/
theorem c1_completed_trip_floor_bug :
    findRow (runEvents defaultConfig 78000 30
        (callElevator defaultConfig ⟨demoStore2, [], [], 0⟩ 5 15 0).1).store 1 =
      some ⟨1, 14, .Idle, .None, []⟩ ∧
    (runEvents defaultConfig 78000 30
        (callElevator defaultConfig ⟨demoStore2, [], [], 0⟩ 5 15 0).1).pending = [] ∧
    (⟨1, "arrival", .doors 15 true⟩ : EventLog) ∈
      (runEvents defaultConfig 78000 30
        (callElevator defaultConfig ⟨demoStore2, [], [], 0⟩ 5 15 0).1).events := by
  refine ⟨by decide, by decide, by decide⟩

/-- Claim C2 counterexample: a call whose start floor 0 lies below the
    building's minimum floor 1 is accepted - with one idle elevator
    callElevator 0 5 returns success = true, whereas the claim demands
    success = false for any floor below the minimum. -/
theorem c2_below_minimum_not_rejected :
    ((callElevator defaultConfig ⟨initElevators 1, [], [], 0⟩ 0 5 0).2).success = true ∧
    (0 : Int) < 1 := by
  refine ⟨by decide, by decide⟩

/-- Claim C2 as amended: callElevator rejects a call, with message "Invalid
    floor numbers." and no mutation of any state (store, event log, timers
    and job-id counter all unchanged), exactly when start_floor = end_floor
    or either floor exceeds MAX_FLOORS; floors below the building's minimum
    floor are not checked and are not rejected. -/
theorem c2_validation_amended (cfg : Config) (sys : Sys) (s e : Int) (now : Nat) :
    ((s = e ∨ s > cfg.MAX_FLOORS ∨ e > cfg.MAX_FLOORS) →
      (callElevator cfg sys s e now).1 = sys ∧
      (callElevator cfg sys s e now).2 =
        { success := false, message := "Invalid floor numbers." }) ∧
    (¬ (s = e ∨ s > cfg.MAX_FLOORS ∨ e > cfg.MAX_FLOORS) →
      (callElevator cfg sys s e now).2.message ≠ "Invalid floor numbers.") := by
  constructor
  · intro h
    unfold callElevator
    rw [if_pos h]
    exact ⟨rfl, rfl⟩
  · intro h
    simp only [callElevator, if_neg h]
    cases findClosestIdleElevator sys.store s with
    | none => simp
    | some el => simp

/-- Claim C2 witness: the amended validation theorem applied at a concrete
    out-of-range call (start floor 21 > MAX_FLOORS 20). -/
theorem c2_validation_amended_witness :
    (callElevator defaultConfig ⟨demoStore1, [], [], 0⟩ 21 5 0).1 =
      ⟨demoStore1, [], [], 0⟩ ∧
    (callElevator defaultConfig ⟨demoStore1, [], [], 0⟩ 21 5 0).2 =
      { success := false, message := "Invalid floor numbers." } :=
  (c2_validation_amended defaultConfig ⟨demoStore1, [], [], 0⟩ 21 5 0).1
    (Or.inr (Or.inl (by decide)))

/-- Claim C4 counterexample: updating elevator 1 (stored Idle at floor 3)
    with the partial update carrying only current_floor = 5 emits exactly one
    state_update event, but its details are the raw partial fields - state
    and direction absent, not the merged values (state Idle, direction None)
    the claim demands; and a provided current_floor of 0 is a falsy value in
    the JavaScript merge, so it is dropped rather than merged, leaving the
    stored record unchanged. -/
theorem c4_event_payload_not_merged :
    (updateElevatorState demoStore1 [] 1 ⟨some 5, none, none, none⟩).2 =
      [⟨1, "state_update", .stateUpdate none none (some 5)⟩] ∧
    (EventDetails.stateUpdate none none (some 5) ≠
      .stateUpdate (some .Idle) (some .None) (some 5)) ∧
    (updateElevatorState demoStore1 [] 1 ⟨some 0, none, none, none⟩).1 = demoStore1 := by
  refine ⟨by decide, by decide, by decide⟩

/-- The UPDATE of updateElevatorState rewrites every row carrying the id and
    leaves the rest alone; looking the id up afterwards therefore returns the
    rewrite of the row found before, for any rewrite that keeps the id. -/
theorem findRow_map_update (store : List ElevatorRow) (id : Nat)
    (g : ElevatorRow → ElevatorRow) (hg : ∀ r, (g r).id = r.id) :
    findRow (store.map fun r => if r.id = id then g r else r) id =
      (findRow store id).map g := by
  induction store with
  | nil => rfl
  | cons a l ih =>
    unfold findRow at ih ⊢
    by_cases ha : a.id = id
    · rw [List.find?_cons_of_pos _ (by simpa using ha)]
      simp only [List.map_cons, if_pos ha]
      rw [List.find?_cons_of_pos _ (by simp [hg, ha])]
      rfl
    · rw [List.find?_cons_of_neg _ (by simpa using ha)]
      simp only [List.map_cons, if_neg ha]
      rw [List.find?_cons_of_neg _ (by simpa using ha)]
      exact ih

/-- Claim C4 as amended: for an existing elevator id, updateElevatorState
    merges the provided truthy fields into every stored row with that id
    (every omitted field retains its prior value; a provided current_floor of
    0 counts as omitted because 0 is falsy under the JavaScript || merge) and
    appends exactly one state_update event - whose details carry the raw
    fields of the partial update as given (absent for omitted fields), not
    the merged record. -/
theorem c4_merge_amended (store : List ElevatorRow) (events : List EventLog)
    (id : Nat) (row : ElevatorRow) (u : PartialUpdate)
    (h : findRow store id = some row) :
    (updateElevatorState store events id u).2 =
      events ++ [⟨id, "state_update", .stateUpdate u.state u.direction u.current_floor⟩] ∧
    findRow (updateElevatorState store events id u).1 id =
      some { row with
        current_floor := jsOrNum u.current_floor row.current_floor,
        state := u.state.getD row.state,
        direction := u.direction.getD row.direction,
        job_queue := u.job_queue.getD row.job_queue } ∧
    (u.current_floor = none →
      findRow (updateElevatorState store events id u).1 id =
        some { row with
          state := u.state.getD row.state,
          direction := u.direction.getD row.direction,
          job_queue := u.job_queue.getD row.job_queue }) ∧
    (u.state = none → u.direction = none → u.job_queue = none →
      findRow (updateElevatorState store events id u).1 id =
        some { row with current_floor := jsOrNum u.current_floor row.current_floor }) := by
  have hby : getElevatorById store id = some (rowToParsed row) := by
    simp [getElevatorById, h]
  have hmain : findRow (updateElevatorState store events id u).1 id =
      some { row with
        current_floor := jsOrNum u.current_floor row.current_floor,
        state := u.state.getD row.state,
        direction := u.direction.getD row.direction,
        job_queue := u.job_queue.getD row.job_queue } := by
    have hgoal := findRow_map_update store id
      (fun r => { r with
        current_floor := jsOrNum u.current_floor row.current_floor,
        state := u.state.getD row.state,
        direction := u.direction.getD row.direction,
        job_queue := u.job_queue.getD row.job_queue }) (fun r => rfl)
    rw [h] at hgoal
    simp only [updateElevatorState, hby]
    exact hgoal
  refine ⟨?_, hmain, ?_, ?_⟩
  · simp only [updateElevatorState, hby, logEvent]
  · intro hc
    rw [hmain, hc]
    rfl
  · intro hs hd hq
    rw [hmain, hs, hd, hq]
    rfl

/-- Claim C4 witness: the amended update theorem applied to the one-elevator
    store, providing state Moving and direction Up while omitting the floor
    and the queue - the omitted fields keep their prior values 3 and [], and
    the single state_update event carries exactly the provided raw fields. -/
theorem c4_merge_amended_witness :
    (updateElevatorState demoStore1 [] 1 ⟨none, some .Moving, some .Up, none⟩).2 =
      [⟨1, "state_update", .stateUpdate (some .Moving) (some .Up) none⟩] ∧
    findRow (updateElevatorState demoStore1 [] 1 ⟨none, some .Moving, some .Up, none⟩).1 1 =
      some ⟨1, 3, .Moving, .Up, []⟩ := by
  have hw := c4_merge_amended demoStore1 [] 1 ⟨1, 3, .Idle, .None, []⟩
    ⟨none, some .Moving, some .Up, none⟩ rfl
  exact ⟨hw.1, hw.2.1⟩

/-- Claim C5: with no elevator in the Idle state, a call passing the floor
    validation is rejected with exactly the message "No idle elevators
    available.", and the whole system state - elevator rows, event log,
    timers, job-id counter - is left untouched. -/
theorem c5_no_idle_rejection (cfg : Config) (sys : Sys) (s e : Int) (now : Nat)
    (hv : ¬ (s = e ∨ s > cfg.MAX_FLOORS ∨ e > cfg.MAX_FLOORS))
    (hno : ∀ r ∈ sys.store, r.state ≠ .Idle) :
    (callElevator cfg sys s e now).1 = sys ∧
    (callElevator cfg sys s e now).2 =
      { success := false, message := "No idle elevators available." } := by
  have hfilter : (getElevators sys.store).filter (fun e => decide (e.state = .Idle)) = [] := by
    rw [List.filter_eq_nil_iff]
    intro a ha
    obtain ⟨r, hr, rfl⟩ := List.mem_map.mp ha
    simpa [rowToSnapshot] using hno r hr
  have hnone : findClosestIdleElevator sys.store s = none := by
    unfold findClosestIdleElevator
    rw [hfilter]
  unfold callElevator
  rw [if_neg hv, hnone]
  exact ⟨rfl, rfl⟩

/-- Claim C5 witness: the rejection theorem applied to a fleet whose single
    elevator is Moving. -/
theorem c5_no_idle_rejection_witness :
    (callElevator defaultConfig ⟨[⟨1, 4, .Moving, .Up, [⟨2, 6, 0⟩]⟩], [], [], 1⟩ 2 6 0).1 =
      ⟨[⟨1, 4, .Moving, .Up, [⟨2, 6, 0⟩]⟩], [], [], 1⟩ ∧
    (callElevator defaultConfig ⟨[⟨1, 4, .Moving, .Up, [⟨2, 6, 0⟩]⟩], [], [], 1⟩ 2 6 0).2 =
      { success := false, message := "No idle elevators available." } :=
  c5_no_idle_rejection defaultConfig ⟨[⟨1, 4, .Moving, .Up, [⟨2, 6, 0⟩]⟩], [], [], 1⟩ 2 6 0
    (by decide) (by decide)

/-- Claim C8 counterexample: firing the arrival step of a movement chain for
    elevator 7 against a store that holds no such elevator emits an arrival
    event for the missing elevator - the claim that no Event is emitted for
    it is false (the store itself is indeed left unchanged). -/
theorem c8_missing_elevator_still_logs_arrival :
    (processEvent defaultConfig ⟨[], [], [], 0⟩ 0 (.floorStep 7 .Up 5 5)).events =
      [⟨7, "arrival", .doors 5 true⟩] ∧
    (processEvent defaultConfig ⟨[], [], [], 0⟩ 0 (.floorStep 7 .Up 5 5)).store = [] := by
  refine ⟨by decide, by decide⟩

/-- Claim C8 as amended: when the elevator record of an in-flight movement
    chain no longer exists, no step of the chain ever writes elevator state,
    no retry occurs and no error is raised (every handler returns normally),
    and a leg start is abandoned outright; plain floor steps write nothing
    and emit nothing (though the chain timer still advances), but the arrival
    and door-close steps still append their arrival and door_close Events for
    the missing elevator. -/
theorem c8_missing_elevator_amended (cfg : Config) (sys : Sys) (now : Nat)
    (id : Nat) (hmissing : ∀ r ∈ sys.store, r.id ≠ id) :
    (∀ dir endF cur, cur ≠ endF →
      processEvent cfg sys now (.floorStep id dir endF cur) =
        { sys with pending := sys.pending ++
            [(now + cfg.FLOOR_TRAVEL_TIME_MS,
              .floorStep id dir endF (if dir = .Up then cur + 1 else cur - 1))] }) ∧
    (∀ dir endF,
      processEvent cfg sys now (.floorStep id dir endF endF) =
        { sys with
          events := sys.events ++ [⟨id, "arrival", .doors endF true⟩],
          pending := sys.pending ++ [(now + cfg.DOOR_ACTION_TIME_MS, .doorClose id endF)] }) ∧
    (∀ floor,
      processEvent cfg sys now (.doorClose id floor) =
        { sys with events := sys.events ++ [⟨id, "door_close", .doors floor false⟩] }) ∧
    (∀ s e j, processEvent cfg sys now (.secondLeg id s e j) = sys) := by
  have hfind : findRow sys.store id = none := by
    rw [findRow, List.find?_eq_none]
    intro r hr
    simpa using hmissing r hr
  have hby : getElevatorById sys.store id = none := by
    simp [getElevatorById, hfind]
  have hupd : ∀ events u, updateElevatorState sys.store events id u = (sys.store, events) := by
    intro events u
    simp [updateElevatorState, hby]
  refine ⟨?_, ?_, ?_, ?_⟩
  · intro dir endF cur hne
    simp only [processEvent, floorIteratorStep, if_neg hne, hupd]
  · intro dir endF
    simp [processEvent, floorIteratorStep, arriveAtFloor, hupd, logEvent]
  · intro floor
    simp only [processEvent, hupd, logEvent]
  · intro s e j
    simp only [processEvent, moveElevator, hby]

/-- Claim C8 witness: the amended theorem applied to a concrete system whose
    store lacks elevator 2: its door-close step writes no elevator state but
    still logs a door_close event. -/
theorem c8_missing_elevator_amended_witness :
    processEvent defaultConfig ⟨demoStore1, [], [], 0⟩ 0 (.doorClose 2 4) =
      { store := demoStore1, events := [⟨2, "door_close", .doors 4 false⟩],
        pending := [], nextJobId := 0 } := by
  have hw := (c8_missing_elevator_amended defaultConfig ⟨demoStore1, [], [], 0⟩ 0 2
    (by decide)).2.2.1 4
  exact hw

/-- Claim C9: the status query returns the empty list for an unknown id, the
    singleton of the snapshot of the stored record for a known id (the
    snapshot agrees with the stored row on id, floor, state and direction,
    its job_queue being the parse of the stored serialized queue, which is
    the snapshot form of the data model), and with no id the full fleet in
    the store's order - so in stable id order whenever the store is id
    sorted. -/
theorem c9_status_query (store : List ElevatorRow) :
    (∀ id, (∀ r ∈ store, r.id ≠ id) → getElevatorStatus store (some id) = []) ∧
    (∀ id row, findRow store id = some row →
      getElevatorStatus store (some id) = [rowToParsed row]) ∧
    getElevatorStatus store none = getElevators store ∧
    (getElevatorStatus store none).map Elevator.id = store.map ElevatorRow.id ∧
    (List.Pairwise (fun a b => a.id < b.id) store →
      List.Pairwise (fun (a b : Elevator) => a.id < b.id) (getElevatorStatus store none)) := by
  refine ⟨?_, ?_, rfl, ?_, ?_⟩
  · intro id hno
    have hfind : findRow store id = none := by
      rw [findRow, List.find?_eq_none]
      intro r hr
      simpa using hno r hr
    simp [getElevatorStatus, getElevatorById, hfind]
  · intro id row h
    simp [getElevatorStatus, getElevatorById, h]
  · simp only [getElevatorStatus, getElevators, List.map_map]
    rfl
  · intro h
    exact List.pairwise_map.mpr h

/-- Claim C9 witness: the status-query theorem applied to the two-elevator
    fleet - id 5 is unknown and yields the empty list, id 1 yields the
    singleton parsed snapshot of its stored row. -/
theorem c9_status_query_witness :
    getElevatorStatus demoStore2 (some 5) = [] ∧
    getElevatorStatus demoStore2 (some 1) = [rowToParsed ⟨1, 1, .Idle, .None, []⟩] :=
  ⟨(c9_status_query demoStore2).1 5 (by decide),
   (c9_status_query demoStore2).2.1 1 ⟨1, 1, .Idle, .None, []⟩ rfl⟩

/-- Claim C10: for the same stored elevator the two modes of the status query
    return snapshots of different shape - the by-id mode returns the record
    with job_queue the parsed array, the all-elevators mode returns the raw
    row with job_queue still the stored JSON text - and the two snapshots are
    never equal (a JavaScript string is not an array). -/
theorem c10_status_snapshot_shapes (store : List ElevatorRow) (id : Nat)
    (row : ElevatorRow) (h : findRow store id = some row) :
    getElevatorStatus store (some id) = [rowToParsed row] ∧
    (rowToParsed row).job_queue = .array row.job_queue ∧
    rowToSnapshot row ∈ getElevatorStatus store none ∧
    (rowToSnapshot row).job_queue = .jsonText row.job_queue ∧
    rowToParsed row ≠ rowToSnapshot row := by
  refine ⟨?_, rfl, ?_, rfl, ?_⟩
  · simp [getElevatorStatus, getElevatorById, h]
  · exact List.mem_map_of_mem rowToSnapshot (List.mem_of_find?_eq_some h)
  · intro heq
    have := congrArg Elevator.job_queue heq
    simp [rowToParsed, rowToSnapshot] at this

/-- The selection loop returns the first element of minimal distance: the
    initial candidate list splits around the result, every elevator before
    the result is strictly farther, and no elevator anywhere is closer. -/
theorem closestLoop_spec (s : Int) (rest : List Elevator) (best : Elevator) :
    ∃ pre post, best :: rest = pre ++ closestLoop s rest best :: post ∧
      (∀ x ∈ pre, floorDistance s (closestLoop s rest best) < floorDistance s x) ∧
      (∀ x ∈ best :: rest, floorDistance s (closestLoop s rest best) ≤ floorDistance s x) := by
  induction rest generalizing best with
  | nil =>
    refine ⟨[], [], rfl, by simp, ?_⟩
    intro x hx
    rw [List.mem_singleton] at hx
    subst hx
    exact Nat.le_refl _
  | cons a l ih =>
    rw [closestLoop]
    by_cases hab : (a.current_floor - s).natAbs < (best.current_floor - s).natAbs
    · rw [if_pos hab]
      obtain ⟨pre, post, heq, hpre, hmin⟩ := ih a
      refine ⟨best :: pre, post, by rw [List.cons_append, ← heq], ?_, ?_⟩
      · intro x hx
        rcases List.mem_cons.mp hx with hx | hx
        · rw [hx]
          exact Nat.lt_of_le_of_lt (hmin a (List.mem_cons_self a l)) hab
        · exact hpre x hx
      · intro x hx
        rcases List.mem_cons.mp hx with hx | hx
        · rw [hx]
          exact Nat.le_of_lt (Nat.lt_of_le_of_lt (hmin a (List.mem_cons_self a l)) hab)
        · exact hmin x hx
    · rw [if_neg hab]
      obtain ⟨pre, post, heq, hpre, hmin⟩ := ih best
      have hba : floorDistance s (closestLoop s l best) ≤ floorDistance s a :=
        Nat.le_trans (hmin best (List.mem_cons_self best l)) (Nat.le_of_not_lt hab)
      cases pre with
      | nil =>
        have hhead : best = closestLoop s l best := by
          simpa using congrArg (fun t => t.head?) heq
        refine ⟨[], a :: l, by simpa using hhead, by simp, ?_⟩
        intro x hx
        rcases List.mem_cons.mp hx with hx | hx
        · rw [hx]
          exact hmin best (List.mem_cons_self best l)
        · rcases List.mem_cons.mp hx with hx | hx
          · rw [hx]
            exact hba
          · exact hmin x (List.mem_cons_of_mem best hx)
      | cons p pre2 =>
        have hp : best = p ∧ l = pre2 ++ closestLoop s l best :: post := by
          rw [List.cons_append] at heq
          injection heq with h1 h2
          exact ⟨h1, h2⟩
        refine ⟨best :: a :: pre2, post, ?_, ?_, ?_⟩
        · rw [List.cons_append, List.cons_append, ← hp.2]
        · intro x hx
          have hrb : floorDistance s (closestLoop s l best) < floorDistance s best :=
            hpre best (hp.1 ▸ List.mem_cons_self p pre2)
          rcases List.mem_cons.mp hx with hx | hx
          · rw [hx]
            exact hrb
          · rcases List.mem_cons.mp hx with hx | hx
            · rw [hx]
              exact Nat.lt_of_lt_of_le hrb (Nat.le_of_not_lt hab)
            · exact hpre x (hp.1 ▸ List.mem_cons_of_mem p hx)
        · intro x hx
          rcases List.mem_cons.mp hx with hx | hx
          · rw [hx]
            exact hmin best (List.mem_cons_self best l)
          · rcases List.mem_cons.mp hx with hx | hx
            · rw [hx]
              exact hba
            · exact hmin x (List.mem_cons_of_mem best hx)

/-- Claim C3: for a valid call finding at least one idle elevator,
    callElevator selects exactly the elevator returned by
    findClosestIdleElevator, which is an Idle elevator of minimal absolute
    distance to the start floor among the idle elevators, and the first such
    elevator in the order of the store's list (every idle elevator listed
    before it is strictly farther). -/
theorem c3_closest_idle_selected (cfg : Config) (sys : Sys) (s e : Int) (now : Nat)
    (hv : ¬ (s = e ∨ s > cfg.MAX_FLOORS ∨ e > cfg.MAX_FLOORS))
    (e0 : Elevator) (rest : List Elevator)
    (hidles : (getElevators sys.store).filter (fun x => decide (x.state = .Idle)) = e0 :: rest) :
    ∃ el pre post,
      findClosestIdleElevator sys.store s = some el ∧
      (callElevator cfg sys s e now).2.elevator_id = some el.id ∧
      el.state = .Idle ∧
      e0 :: rest = pre ++ el :: post ∧
      (∀ x ∈ pre, floorDistance s el < floorDistance s x) ∧
      (∀ x ∈ e0 :: rest, floorDistance s el ≤ floorDistance s x) := by
  have hfc : findClosestIdleElevator sys.store s = some (closestLoop s rest e0) := by
    unfold findClosestIdleElevator
    rw [hidles]
  obtain ⟨pre, post, heq, hpre, hmin⟩ := closestLoop_spec s rest e0
  have hmem : closestLoop s rest e0 ∈ e0 :: rest := by
    rw [heq]
    exact List.mem_append_right pre (List.mem_cons_self _ _)
  have hidle : (closestLoop s rest e0).state = .Idle := by
    have := List.mem_filter.mp (hidles ▸ hmem)
    simpa using this.2
  refine ⟨closestLoop s rest e0, pre, post, hfc, ?_, hidle, heq, hpre, hmin⟩
  unfold callElevator
  rw [if_neg hv, hfc]

/-- Claim C3 witness: the selection theorem applied to the two-elevator
    fleet at floors 1 and 10 with a call starting at floor 5 - the selected
    elevator is the one at floor 1 (distance 4 against distance 5). -/
theorem c3_closest_idle_selected_witness :
    ∃ el pre post,
      findClosestIdleElevator demoStore2 5 = some el ∧
      (callElevator defaultConfig ⟨demoStore2, [], [], 0⟩ 5 15 0).2.elevator_id = some el.id ∧
      el.state = .Idle ∧
      rowToSnapshot ⟨1, 1, .Idle, .None, []⟩ :: [rowToSnapshot ⟨2, 10, .Idle, .None, []⟩] =
        pre ++ el :: post ∧
      (∀ x ∈ pre, floorDistance 5 el < floorDistance 5 x) ∧
      (∀ x ∈ rowToSnapshot ⟨1, 1, .Idle, .None, []⟩ :: [rowToSnapshot ⟨2, 10, .Idle, .None, []⟩],
        floorDistance 5 el ≤ floorDistance 5 x) :=
  c3_closest_idle_selected defaultConfig ⟨demoStore2, [], [], 0⟩ 5 15 0 (by decide)
    (rowToSnapshot ⟨1, 1, .Idle, .None, []⟩) [rowToSnapshot ⟨2, 10, .Idle, .None, []⟩]
    (by decide)

/-- filterMap distributes over event-log appends. -/
theorem issuedJobIds_append (a b : List EventLog) :
    issuedJobIds (a ++ b) = issuedJobIds a ++ issuedJobIds b :=
  List.filterMap_append a b _

/-- updateElevatorState issues no job id (its state_update event carries
    none). -/
theorem issuedJobIds_updateElevatorState (store : List ElevatorRow)
    (events : List EventLog) (id : Nat) (u : PartialUpdate) :
    issuedJobIds (updateElevatorState store events id u).2 = issuedJobIds events := by
  unfold updateElevatorState
  cases getElevatorById store id with
  | none => rfl
  | some el => simp [logEvent, issuedJobIds, List.filterMap_append]

/-- A floorIterator invocation issues no job id. -/
theorem issuedJobIds_floorIteratorStep (cfg : Config) (sys : Sys) (now : Nat)
    (id : Nat) (dir : Direction) (endF cur : Int) :
    issuedJobIds (floorIteratorStep cfg sys now id dir endF cur).events =
      issuedJobIds sys.events := by
  unfold floorIteratorStep arriveAtFloor
  by_cases h : cur = endF
  · rw [if_pos h]
    show issuedJobIds (logEvent (updateElevatorState sys.store sys.events id _).2 id _ _) = _
    rw [logEvent, issuedJobIds_append, issuedJobIds_updateElevatorState]
    simp [issuedJobIds]
  · rw [if_neg h]
    exact issuedJobIds_updateElevatorState _ _ _ _

/-- moveElevator issues no job id. -/
theorem issuedJobIds_moveElevator (cfg : Config) (sys : Sys) (now : Nat)
    (id : Nat) (s e : Int) (j : Nat) :
    issuedJobIds (moveElevator cfg sys now id s e j).events = issuedJobIds sys.events := by
  unfold moveElevator
  cases getElevatorById sys.store id with
  | none => rfl
  | some el =>
    rw [issuedJobIds_floorIteratorStep]
    exact issuedJobIds_updateElevatorState _ _ _ _

/-- A floorIterator invocation leaves the job-id counter alone. -/
theorem nextJobId_floorIteratorStep (cfg : Config) (sys : Sys) (now : Nat)
    (id : Nat) (dir : Direction) (endF cur : Int) :
    (floorIteratorStep cfg sys now id dir endF cur).nextJobId = sys.nextJobId := by
  unfold floorIteratorStep arriveAtFloor
  by_cases h : cur = endF
  · rw [if_pos h]
  · rw [if_neg h]

/-- moveElevator leaves the job-id counter alone. -/
theorem nextJobId_moveElevator (cfg : Config) (sys : Sys) (now : Nat)
    (id : Nat) (s e : Int) (j : Nat) :
    (moveElevator cfg sys now id s e j).nextJobId = sys.nextJobId := by
  unfold moveElevator
  cases getElevatorById sys.store id with
  | none => rfl
  | some el => exact nextJobId_floorIteratorStep _ _ _ _ _ _ _

/-- Claim C6: a valid call with at least one idle elevator is accepted
    immediately: the result carries success = true, status Moving, the
    dispatch message, the selected elevator's id and a freshly generated job
    id distinct from every previously issued one; the generator counter
    advances, the call event records the new id, and the freshness invariant
    is preserved for later calls. -/
theorem c6_valid_call_dispatch (cfg : Config) (sys : Sys) (s e : Int) (now : Nat)
    (hv : ¬ (s = e ∨ s > cfg.MAX_FLOORS ∨ e > cfg.MAX_FLOORS))
    (hidle : ∃ r ∈ sys.store, r.state = .Idle)
    (hfresh : ∀ j ∈ issuedJobIds sys.events, j < sys.nextJobId) :
    ∃ el, findClosestIdleElevator sys.store s = some el ∧
      (callElevator cfg sys s e now).2 =
        { success := true, jobId := some sys.nextJobId,
          message := "Elevator dispatched.", elevator_id := some el.id,
          status := some "Moving" } ∧
      (∀ j ∈ issuedJobIds sys.events, j ≠ sys.nextJobId) ∧
      issuedJobIds (callElevator cfg sys s e now).1.events =
        issuedJobIds sys.events ++ [sys.nextJobId] ∧
      (callElevator cfg sys s e now).1.nextJobId = sys.nextJobId + 1 ∧
      (∀ j ∈ issuedJobIds (callElevator cfg sys s e now).1.events,
        j < (callElevator cfg sys s e now).1.nextJobId) := by
  obtain ⟨r, hr, hrIdle⟩ := hidle
  have hmem : rowToSnapshot r ∈
      (getElevators sys.store).filter (fun x => decide (x.state = .Idle)) := by
    refine List.mem_filter.mpr ⟨List.mem_map_of_mem rowToSnapshot hr, ?_⟩
    simpa [rowToSnapshot] using hrIdle
  obtain ⟨e0, rest, hidles⟩ :
      ∃ e0 rest, (getElevators sys.store).filter (fun x => decide (x.state = .Idle)) =
        e0 :: rest := by
    cases hf : (getElevators sys.store).filter (fun x => decide (x.state = .Idle)) with
    | nil => rw [hf] at hmem; cases hmem
    | cons e0 rest => exact ⟨e0, rest, rfl⟩
  have hfc : findClosestIdleElevator sys.store s = some (closestLoop s rest e0) := by
    unfold findClosestIdleElevator
    rw [hidles]
  refine ⟨closestLoop s rest e0, hfc, ?_, ?_, ?_, ?_, ?_⟩
  · unfold callElevator
    rw [if_neg hv, hfc]
  · intro j hj
    exact Nat.ne_of_lt (hfresh j hj)
  · unfold callElevator
    rw [if_neg hv, hfc]
    simp only [nextJobId_moveElevator, issuedJobIds_moveElevator]
    simp [logEvent, issuedJobIds_append, issuedJobIds]
  · unfold callElevator
    rw [if_neg hv, hfc]
    simp only [nextJobId_moveElevator]
  · unfold callElevator
    rw [if_neg hv, hfc]
    simp only [nextJobId_moveElevator, issuedJobIds_moveElevator]
    intro j hj
    rw [logEvent, issuedJobIds_append] at hj
    rcases List.mem_append.mp hj with hj | hj
    · exact Nat.lt_succ_of_lt (hfresh j hj)
    · have : j = sys.nextJobId := by simpa [issuedJobIds] using hj
      subst this
      exact Nat.lt_succ_self _

/-- Claim C6 witness: the dispatch theorem applied to the two-elevator fleet
    with the call from floor 5 to floor 15 and an empty issuance history. -/
theorem c6_valid_call_dispatch_witness :
    ∃ el, findClosestIdleElevator demoStore2 5 = some el ∧
      (callElevator defaultConfig ⟨demoStore2, [], [], 0⟩ 5 15 0).2 =
        { success := true, jobId := some 0, message := "Elevator dispatched.",
          elevator_id := some el.id, status := some "Moving" } ∧
      (∀ j ∈ issuedJobIds ([] : List EventLog), j ≠ 0) ∧
      issuedJobIds (callElevator defaultConfig ⟨demoStore2, [], [], 0⟩ 5 15 0).1.events =
        issuedJobIds ([] : List EventLog) ++ [0] ∧
      (callElevator defaultConfig ⟨demoStore2, [], [], 0⟩ 5 15 0).1.nextJobId = 0 + 1 ∧
      (∀ j ∈ issuedJobIds (callElevator defaultConfig ⟨demoStore2, [], [], 0⟩ 5 15 0).1.events,
        j < (callElevator defaultConfig ⟨demoStore2, [], [], 0⟩ 5 15 0).1.nextJobId) :=
  c6_valid_call_dispatch defaultConfig ⟨demoStore2, [], [], 0⟩ 5 15 0 (by decide)
    ⟨⟨1, 1, .Idle, .None, []⟩, by decide, rfl⟩ (by simp [issuedJobIds])

/-- When the id is absent the update writes nothing. -/
theorem update_store_none (store : List ElevatorRow) (events : List EventLog)
    (id : Nat) (u : PartialUpdate) (h : getElevatorById store id = none) :
    (updateElevatorState store events id u).1 = store := by
  simp [updateElevatorState, h]

/-- When the id is present the update maps the store, merging the read row's
    values into every row carrying the id. -/
theorem update_store_some (store : List ElevatorRow) (events : List EventLog)
    (id : Nat) (u : PartialUpdate) (row : ElevatorRow)
    (h : findRow store id = some row) :
    (updateElevatorState store events id u).1 = store.map fun r =>
      if r.id = id then
        { r with
          current_floor := jsOrNum u.current_floor row.current_floor,
          state := u.state.getD row.state,
          direction := u.direction.getD row.direction,
          job_queue := u.job_queue.getD row.job_queue }
      else r := by
  have hby : getElevatorById store id = some (rowToParsed row) := by
    simp [getElevatorById, h]
  simp [updateElevatorState, hby, rowToParsed, JobQueueVal.jobs]

/-- An update whose merged state, direction and queue keep the row
    equivalence produces an invariant-satisfying store from one. -/
theorem rowInv_after_update (store : List ElevatorRow) (events : List EventLog)
    (id : Nat) (u : PartialUpdate)
    (hinv : ∀ r ∈ store, rowInv r)
    (hok : ∀ row, findRow store id = some row →
      (u.direction.getD row.direction = .None ↔ u.state.getD row.state = .Idle) ∧
      (u.state.getD row.state = .Idle ↔ u.job_queue.getD row.job_queue = [])) :
    ∀ r' ∈ (updateElevatorState store events id u).1, rowInv r' := by
  intro r' h'
  cases hf : findRow store id with
  | none =>
    rw [update_store_none store events id u (by simp [getElevatorById, hf])] at h'
    exact hinv r' h'
  | some row =>
    rw [update_store_some store events id u row hf] at h'
    obtain ⟨r, hr, hre⟩ := List.mem_map.mp h'
    by_cases hid : r.id = id
    · rw [← hre, if_pos hid]
      exact hok row hf
    · rw [← hre, if_neg hid]
      exact hinv r hr

/-- An update whose merged direction and queue are non-idle keeps the chain
    condition that all rows of the id carry a direction and a job. -/
theorem cond_after_update (store : List ElevatorRow) (events : List EventLog)
    (id : Nat) (u : PartialUpdate) (row : ElevatorRow)
    (hf : findRow store id = some row)
    (hok : u.direction.getD row.direction ≠ .None ∧ u.job_queue.getD row.job_queue ≠ []) :
    ∀ r' ∈ (updateElevatorState store events id u).1, r'.id = id →
      r'.direction ≠ .None ∧ r'.job_queue ≠ [] := by
  intro r' h' hid'
  rw [update_store_some store events id u row hf] at h'
  obtain ⟨r, hr, hre⟩ := List.mem_map.mp h'
  by_cases hid : r.id = id
  · rw [← hre, if_pos hid]
    exact hok
  · rw [← hre, if_neg hid] at hid'
    exact absurd hid' hid

/-- Looking up the updated id after a successful update returns the merge of
    the row found before. -/
theorem findRow_update_found (store : List ElevatorRow) (events : List EventLog)
    (id : Nat) (u : PartialUpdate) (row : ElevatorRow)
    (hf : findRow store id = some row) :
    findRow (updateElevatorState store events id u).1 id =
      some { row with
        current_floor := jsOrNum u.current_floor row.current_floor,
        state := u.state.getD row.state,
        direction := u.direction.getD row.direction,
        job_queue := u.job_queue.getD row.job_queue } := by
  rw [update_store_some store events id u row hf]
  rw [findRow_map_update store id (fun r =>
    { r with
      current_floor := jsOrNum u.current_floor row.current_floor,
      state := u.state.getD row.state,
      direction := u.direction.getD row.direction,
      job_queue := u.job_queue.getD row.job_queue }) (fun r => rfl), hf]
  rfl

/-- Arithmetic of one chain step: if the remaining chain time fits strictly
    before a deadline, it still does after trading one remaining floor for
    one elapsed travel interval. -/
theorem remaining_step (T D t1 t2 n m : Nat) (hn : n = m + 1)
    (h : t1 + (n * T + D) < t2) : (t1 + T) + (m * T + D) < t2 := by
  subst hn
  rw [Nat.succ_mul] at h
  generalize m * T = k at h ⊢
  omega

/-- pickEarliest on a pair takes the strictly earlier timer, the first on
    ties. -/
theorem pickEarliest_pair (x y : Nat × TimerEvent) :
    pickEarliest [x, y] = if y.1 < x.1 then some (y, [x]) else some (x, [y]) := rfl

/-- Dispatching a leg with no other timers pending: the rows keep the
    invariant, and either nothing was scheduled (missing elevator) or exactly
    one chain callback is pending, well-shaped, and due to finish the chain
    exactly one travel interval per floor plus one door interval after now. -/
theorem moveElevator_spec (cfg : Config) (sys : Sys) (now : Nat) (id : Nat)
    (s e : Int) (j : Nat) (hpend : sys.pending = [])
    (hrows : ∀ r ∈ sys.store, rowInv r) :
    (∀ r ∈ (moveElevator cfg sys now id s e j).store, rowInv r) ∧
    ((moveElevator cfg sys now id s e j).pending = [] ∨
      ∃ tEv ev, (moveElevator cfg sys now id s e j).pending = [(tEv, ev)] ∧
        chainShape (moveElevator cfg sys now id s e j).store ev ∧
        tEv + chainRemaining cfg ev =
          now + ((e - s).natAbs * cfg.FLOOR_TRAVEL_TIME_MS + cfg.DOOR_ACTION_TIME_MS)) := by
  cases hby : getElevatorById sys.store id with
  | none =>
    simp only [moveElevator, hby]
    exact ⟨hrows, Or.inl hpend⟩
  | some el =>
    obtain ⟨row, hf⟩ : ∃ row, findRow sys.store id = some row := by
      cases hf : findRow sys.store id with
      | none => rw [getElevatorById, hf] at hby; cases hby
      | some row => exact ⟨row, rfl⟩
    simp only [moveElevator, hby]
    set dirD : Direction := if e > s then Direction.Up else Direction.Down with hdirD
    have hdirDne : dirD ≠ .None := by
      rw [hdirD]
      by_cases h : e > s
      · simp [h]
      · simp [h]
    have hdirDor : dirD = .Up ∨ dirD = .Down := by
      rw [hdirD]
      by_cases h : e > s
      · simp [h]
      · simp [h]
    have hrow1 : ∀ events, findRow (updateElevatorState sys.store events id
        ⟨none, some .Moving, some dirD, some [⟨s, e, j⟩]⟩).1 id =
        some ⟨row.id, row.current_floor, .Moving, dirD, [⟨s, e, j⟩]⟩ := by
      intro events
      rw [findRow_update_found sys.store events id _ row hf]
      rfl
    have hrows1 : ∀ events, ∀ r ∈ (updateElevatorState sys.store events id
        ⟨none, some .Moving, some dirD, some [⟨s, e, j⟩]⟩).1, rowInv r := by
      intro events
      apply rowInv_after_update _ _ _ _ hrows
      intro row2 hrow2
      rw [hf] at hrow2
      injection hrow2 with hh
      subst hh
      exact ⟨iff_of_false hdirDne (by simp), iff_of_false (by simp) (by simp)⟩
    have hcond1 : ∀ events, ∀ r ∈ (updateElevatorState sys.store events id
        ⟨none, some .Moving, some dirD, some [⟨s, e, j⟩]⟩).1, r.id = id →
        r.direction ≠ .None ∧ r.job_queue ≠ [] := by
      intro events
      exact cond_after_update sys.store events id _ row hf ⟨hdirDne, by simp⟩
    by_cases hse : s = e
    · simp only [floorIteratorStep, if_pos hse, arriveAtFloor]
      constructor
      · apply rowInv_after_update _ _ _ _ (hrows1 _)
        intro row2 hrow2
        rw [hrow1] at hrow2
        injection hrow2 with hh
        subst hh
        exact ⟨iff_of_false hdirDne (by simp), iff_of_false (by simp) (by simp)⟩
      · right
        refine ⟨now + cfg.DOOR_ACTION_TIME_MS, .doorClose id e, by simp [hpend], trivial, ?_⟩
        subst hse
        simp [chainRemaining]
    · simp only [floorIteratorStep, if_neg hse]
      constructor
      · apply rowInv_after_update _ _ _ _ (hrows1 _)
        intro row2 hrow2
        rw [hrow1] at hrow2
        injection hrow2 with hh
        subst hh
        exact ⟨iff_of_false hdirDne (by simp), iff_of_false (by simp) (by simp)⟩
      · right
        refine ⟨now + cfg.FLOOR_TRAVEL_TIME_MS,
          .floorStep id dirD e (if dirD = .Up then s + 1 else s - 1),
          by simp [hpend], ⟨hdirDor, ?_, ?_⟩, ?_⟩
        · apply cond_after_update _ _ id _ ⟨row.id, row.current_floor, .Moving, dirD, [⟨s, e, j⟩]⟩
            (hrow1 _)
          exact ⟨hdirDne, by simp⟩
        · rcases hdirDor with h | h
          · have he : s < e := by
              by_contra hgt
              have hng : ¬ e > s := by omega
              rw [hdirD, if_neg hng] at h
              exact Direction.noConfusion h
            rw [h]
            simp
            omega
          · have he : e < s := by
              by_contra hlt
              have hps : e > s := by omega
              rw [hdirD, if_pos hps] at h
              exact Direction.noConfusion h
            rw [h]
            simp
            omega
        · have hn : (e - s).natAbs =
              (e - (if dirD = .Up then s + 1 else s - 1)).natAbs + 1 := by
            rcases hdirDor with h | h
            · have he : s < e := by
                by_contra hgt
                have hng : ¬ e > s := by omega
                rw [hdirD, if_neg hng] at h
                exact Direction.noConfusion h
              rw [h]
              simp
              omega
            · have he : e < s := by
                by_contra hlt
                have hps : e > s := by omega
                rw [hdirD, if_pos hps] at h
                exact Direction.noConfusion h
              rw [h]
              simp
              omega
          simp only [chainRemaining]
          rw [hn, Nat.succ_mul]
          generalize (e - (if dirD = .Up then s + 1 else s - 1)).natAbs *
            cfg.FLOOR_TRAVEL_TIME_MS = k
          omega

/-- Firing a well-shaped chain callback whose pending companions are at most
    one leg timer due after the chain finishes preserves the invariant. -/
theorem sysInv_chain_step (cfg : Config) (sys : Sys) (t : Nat) (ev : TimerEvent)
    (hrows : ∀ r ∈ sys.store, rowInv r)
    (hchain : chainShape sys.store ev)
    (hpend : sys.pending = [] ∨
      ∃ tl l, sys.pending = [(tl, l)] ∧ isLeg l ∧ t + chainRemaining cfg ev < tl) :
    sysInv cfg (processEvent cfg sys t ev) := by
  cases ev with
  | secondLeg id s e j => exact hchain.elim
  | doorClose id floor =>
    simp only [processEvent]
    constructor
    · apply rowInv_after_update _ _ _ _ hrows
      intro row hrow
      exact ⟨by simp, by simp⟩
    · rcases hpend with hp | ⟨tl, l, hp, hl, _⟩
      · show pendOk cfg _ sys.pending
        rw [hp]
        trivial
      · show pendOk cfg _ sys.pending
        rw [hp]
        exact Or.inr hl
  | floorStep id dir endF cur =>
    obtain ⟨hdir, hcond, hdirc⟩ := hchain
    by_cases hce : cur = endF
    · simp only [processEvent, floorIteratorStep, if_pos hce, arriveAtFloor]
      constructor
      · apply rowInv_after_update _ _ _ _ hrows
        intro row hrow
        have hmem := List.mem_of_find?_eq_some hrow
        have hid : row.id = id := by simpa using List.find?_some hrow
        obtain ⟨hdne, hqne⟩ := hcond row hmem hid
        exact ⟨iff_of_false hdne (by simp), iff_of_false (by simp) hqne⟩
      · rcases hpend with hp | ⟨tl, l, hp, hl, hb⟩
        · show pendOk cfg _ (sys.pending ++ [(t + cfg.DOOR_ACTION_TIME_MS, .doorClose id endF)])
          rw [hp]
          exact Or.inl trivial
        · show pendOk cfg _ (sys.pending ++ [(t + cfg.DOOR_ACTION_TIME_MS, .doorClose id endF)])
          rw [hp]
          refine Or.inr ⟨hl, trivial, ?_⟩
          simp only [chainRemaining] at hb ⊢
          rw [hce] at hb
          simp at hb
          omega
    · simp only [processEvent, floorIteratorStep, if_neg hce]
      have hshape : chainShape
          (updateElevatorState sys.store sys.events id ⟨some cur, none, none, none⟩).1
          (.floorStep id dir endF (if dir = .Up then cur + 1 else cur - 1)) := by
        refine ⟨hdir, ?_, ?_⟩
        · cases hf : findRow sys.store id with
          | none =>
            rw [update_store_none _ _ _ _ (by simp [getElevatorById, hf])]
            exact hcond
          | some row =>
            apply cond_after_update _ _ _ _ row hf
            have hmem := List.mem_of_find?_eq_some hf
            have hid : row.id = id := by simpa using List.find?_some hf
            exact hcond row hmem hid
        · rcases hdir with h | h
          · rw [h] at hdirc ⊢
            simp at hdirc ⊢
            omega
          · rw [h] at hdirc ⊢
            simp at hdirc ⊢
            omega
      constructor
      · apply rowInv_after_update _ _ _ _ hrows
        intro row hrow
        exact hrows row (List.mem_of_find?_eq_some hrow)
      · rcases hpend with hp | ⟨tl, l, hp, hl, hb⟩
        · show pendOk cfg _ (sys.pending ++ [(t + cfg.FLOOR_TRAVEL_TIME_MS,
            .floorStep id dir endF (if dir = .Up then cur + 1 else cur - 1))])
          rw [hp]
          exact Or.inl hshape
        · show pendOk cfg _ (sys.pending ++ [(t + cfg.FLOOR_TRAVEL_TIME_MS,
            .floorStep id dir endF (if dir = .Up then cur + 1 else cur - 1))])
          rw [hp]
          refine Or.inr ⟨hl, hshape, ?_⟩
          have hn : (endF - cur).natAbs =
              (endF - (if dir = .Up then cur + 1 else cur - 1)).natAbs + 1 := by
            rcases hdir with h | h
            · rw [h] at hdirc ⊢
              simp at hdirc ⊢
              omega
            · rw [h] at hdirc ⊢
              simp at hdirc ⊢
              omega
          simp only [chainRemaining] at hb ⊢
          exact remaining_step _ _ _ _ _ _ hn hb

/-- Firing a leg timer with nothing else pending preserves the invariant. -/
theorem sysInv_leg_step (cfg : Config) (sys : Sys) (t : Nat) (id : Nat)
    (s e : Int) (j : Nat)
    (hrows : ∀ r ∈ sys.store, rowInv r) (hpend : sys.pending = []) :
    sysInv cfg (processEvent cfg sys t (.secondLeg id s e j)) := by
  have hspec := moveElevator_spec cfg sys t id s e j hpend hrows
  refine ⟨hspec.1, ?_⟩
  rcases hspec.2 with hp | ⟨tEv, ev, hp, hsh, _⟩
  · show pendOk cfg (moveElevator cfg sys t id s e j).store
      (moveElevator cfg sys t id s e j).pending
    rw [hp]
    trivial
  · show pendOk cfg (moveElevator cfg sys t id s e j).store
      (moveElevator cfg sys t id s e j).pending
    rw [hp]
    exact Or.inl hsh

/-- Advancing the clock preserves the single-call invariant. -/
theorem sysInv_runEvents (cfg : Config) (horizon : Nat) (fuel : Nat) :
    ∀ sys, sysInv cfg sys → sysInv cfg (runEvents cfg horizon fuel sys) := by
  induction fuel with
  | zero =>
    intro sys h
    exact h
  | succ n ih =>
    intro sys h
    obtain ⟨hrows, hpend⟩ := h
    cases hps : sys.pending with
    | nil =>
      have hpick : pickEarliest sys.pending = none := by rw [hps]; rfl
      rw [runEvents, hpick]
      exact ⟨hrows, hpend⟩
    | cons x xs =>
      cases hxs : xs with
      | nil =>
        obtain ⟨t1, e1⟩ := x
        have hpick : pickEarliest sys.pending = some ((t1, e1), []) := by
          rw [hps, hxs]
          rfl
        rw [runEvents, hpick]
        dsimp only
        by_cases hh : t1 ≤ horizon
        · rw [if_pos hh]
          apply ih
          have hpend1 : pendOk cfg sys.store [(t1, e1)] := by
            rw [hps, hxs] at hpend
            exact hpend
          rcases hpend1 with hc | hl
          · exact sysInv_chain_step cfg { sys with pending := [] } t1 e1 hrows hc (Or.inl rfl)
          · cases e1 with
            | floorStep a b c d => exact hl.elim
            | doorClose a b => exact hl.elim
            | secondLeg id s e j =>
              exact sysInv_leg_step cfg { sys with pending := [] } t1 id s e j hrows rfl
        · rw [if_neg hh]
          exact ⟨hrows, hpend⟩
      | cons y ys =>
        cases hys : ys with
        | nil =>
          obtain ⟨t1, e1⟩ := x
          obtain ⟨t2, e2⟩ := y
          have hpend2 : pendOk cfg sys.store [(t1, e1), (t2, e2)] := by
            rw [hps, hxs, hys] at hpend
            exact hpend
          rcases hpend2 with ⟨hc1, hl2, hb⟩ | ⟨hl1, hc2, hb⟩
          · have ht12 : ¬ t2 < t1 := by omega
            have hpick : pickEarliest sys.pending = some ((t1, e1), [(t2, e2)]) := by
              rw [hps, hxs, hys, pickEarliest_pair, if_neg ht12]
            rw [runEvents, hpick]
            dsimp only
            by_cases hh : t1 ≤ horizon
            · rw [if_pos hh]
              apply ih
              exact sysInv_chain_step cfg { sys with pending := [(t2, e2)] } t1 e1 hrows hc1
                (Or.inr ⟨t2, e2, rfl, hl2, hb⟩)
            · rw [if_neg hh]
              refine ⟨hrows, ?_⟩
              rw [hps, hxs, hys]
              exact Or.inl ⟨hc1, hl2, hb⟩
          · have ht21 : t2 < t1 := by omega
            have hpick : pickEarliest sys.pending = some ((t2, e2), [(t1, e1)]) := by
              rw [hps, hxs, hys, pickEarliest_pair, if_pos ht21]
            rw [runEvents, hpick]
            dsimp only
            by_cases hh : t2 ≤ horizon
            · rw [if_pos hh]
              apply ih
              exact sysInv_chain_step cfg { sys with pending := [(t1, e1)] } t2 e2 hrows hc2
                (Or.inr ⟨t1, e1, rfl, hl1, hb⟩)
            · rw [if_neg hh]
              refine ⟨hrows, ?_⟩
              rw [hps, hxs, hys]
              exact Or.inr ⟨hl1, hc2, hb⟩
        | cons z zs =>
          rw [hps, hxs, hys] at hpend
          exact hpend.elim

/-- A call issued against an invariant-satisfying store with no timers
    pending yields a system satisfying the single-call invariant, provided
    the door interval is positive (so the leg-2 timer fires strictly after
    the leg-1 chain has closed its doors). -/
theorem sysInv_callElevator (cfg : Config) (hD : 1 ≤ cfg.DOOR_ACTION_TIME_MS)
    (store : List ElevatorRow) (events : List EventLog) (njid : Nat)
    (s e : Int) (now : Nat)
    (hrows : ∀ r ∈ store, rowInv r) :
    sysInv cfg (callElevator cfg ⟨store, events, [], njid⟩ s e now).1 := by
  unfold callElevator
  by_cases hv : s = e ∨ s > cfg.MAX_FLOORS ∨ e > cfg.MAX_FLOORS
  · rw [if_pos hv]
    exact ⟨hrows, trivial⟩
  · rw [if_neg hv]
    cases hfc : findClosestIdleElevator store s with
    | none =>
      exact ⟨hrows, trivial⟩
    | some el =>
      have hmv := moveElevator_spec cfg
        ⟨store, logEvent events el.id "call" (.callDetails s e njid), [], njid + 1⟩
        now el.id el.current_floor s njid rfl hrows
      refine ⟨hmv.1, ?_⟩
      rcases hmv.2 with hp | ⟨tEv, ev, hp, hsh, hbd⟩
      · show pendOk cfg _ (_ ++ [(_, TimerEvent.secondLeg el.id s e njid)])
        rw [hp]
        exact Or.inr trivial
      · show pendOk cfg _ (_ ++ [(_, TimerEvent.secondLeg el.id s e njid)])
        rw [hp]
        refine Or.inl ⟨hsh, trivial, ?_⟩
        omega

/-- Claim C7 counterexample: the data-model equivalence fails in a reachable
    state.  With one elevator and the default configuration, a call from 1 to
    2 at time 0 is followed (in its idle window between the leg-1 door close
    at 2000 ms and the leg-2 timer at 4000 ms) by a second call from 10 to 11
    at time 3000; the leg-2 timer of the first call then overwrites the
    second job, and when the abandoned chain of the second call reaches floor
    10 at 48000 ms its arrival step fires on an already-idle elevator: the
    store then holds state DoorsOpen with direction None and an empty job
    queue, violating the claimed pairwise equivalence. -/
theorem c7_invariant_violation_overlap :
    findRow (runEvents defaultConfig 48000 20
      (callElevator defaultConfig
        (runEvents defaultConfig 2999 5
          (callElevator defaultConfig ⟨initElevators 1, [], [], 0⟩ 1 2 0).1)
        10 11 3000).1).store 1 =
      some ⟨1, 9, .DoorsOpen, .None, []⟩ ∧
    ¬ rowInv ⟨1, 9, .DoorsOpen, .None, []⟩ := by
  refine ⟨by decide, by decide⟩

/-- Claim C7 as amended: the three conditions direction = None, state = Idle
    and empty job queue are pairwise equivalent in every elevator state
    reachable from an invariant-satisfying store through initialization and a
    single dispatched call with its timer chain, run to any point (for any
    positive door interval).  The equivalence is not preserved under
    overlapping calls: the estimated-time leg-2 scheduling can fire an
    arrival step on an already-idle elevator, producing state DoorsOpen with
    direction None and an empty queue, as the counterexample shows. -/
theorem c7_invariant_single_call (cfg : Config) (hD : 1 ≤ cfg.DOOR_ACTION_TIME_MS)
    (store : List ElevatorRow) (events : List EventLog) (njid : Nat)
    (hrowsInit : ∀ r ∈ store, rowInv r)
    (s e : Int) (now horizon fuel : Nat) :
    ∀ r ∈ (runEvents cfg horizon fuel
      (callElevator cfg ⟨store, events, [], njid⟩ s e now).1).store, rowInv r :=
  (sysInv_runEvents cfg horizon fuel _
    (sysInv_callElevator cfg hD store events njid s e now hrowsInit)).1

/-- Claim C7 witness: the single-call invariant theorem applied to the
    specification's scenario run for the whole trip, instantiated at the
    final record of the dispatched elevator (which the run leaves in the
    store). -/
theorem c7_invariant_single_call_witness :
    rowInv ⟨1, 14, .Idle, .None, []⟩ :=
  c7_invariant_single_call defaultConfig (by decide) demoStore2 [] 0 (by decide) 5 15 0 78000 30
    ⟨1, 14, .Idle, .None, []⟩ (by decide)

/-- Claim C10 witness: the snapshot-shape theorem applied to elevator 2 of
    the two-elevator fleet. -/
theorem c10_status_snapshot_shapes_witness :
    getElevatorStatus demoStore2 (some 2) = [rowToParsed ⟨2, 10, .Idle, .None, []⟩] ∧
    rowToParsed (⟨2, 10, .Idle, .None, []⟩ : ElevatorRow) ≠
      rowToSnapshot ⟨2, 10, .Idle, .None, []⟩ := by
  have hw := c10_status_snapshot_shapes demoStore2 2 ⟨2, 10, .Idle, .None, []⟩ rfl
  exact ⟨hw.1, hw.2.2.2.2⟩

end ElevatorApi
